import Mathlib

/-!
Verification development for the analytics core of the Arcadia repository
(`src/core/performance_analyzer.py` and `src/core/progress_tracker.py`).

The Python code computes with IEEE doubles.  Every number that actually
arises in the analysed computations is either a rational, a rational plus a
rational multiple of a single square root (a standard deviation or a
correlation coefficient), NaN, or an infinity.  We therefore embed the
numeric domain as the exact value type `RV`: finite values `p + q * √r`
with `p q r : ℚ`, plus `nan`, `pinf`, `ninf`, with the IEEE rules for
NaN/infinity propagation, comparisons (NaN compares false), and division by
zero.  Arithmetic is exact where the float code rounds; all magnitudes in
the claims are far from any rounding boundary, so the comparison outcomes
agree with the float execution.  Sums or products of two *distinct*
irrational radicals never occur in the modelled computations (each embedded
function introduces at most one square root); those unreachable cases are
mapped to `nan` and are marked below.
-/

unseal Rat.add Rat.inv Rat.mul Rat.sub

/-- Binary search step for the integer square root: `lo * lo ≤ n < hi * hi`
is maintained; the fuel bounds the number of halvings.  (Structural
recursion, so that proofs can evaluate it by kernel reduction.) -/
def sqrtLoop : ℕ → ℕ → ℕ → ℕ → ℕ
  | 0, lo, _, _ => lo
  | f + 1, lo, hi, n =>
    if hi ≤ lo + 1 then lo
    else
      let m := (lo + hi) / 2
      if m * m ≤ n then sqrtLoop f m hi n else sqrtLoop f lo m n

/-- Integer square root (rounded down) by binary search. -/
def natSqrtE (n : ℕ) : ℕ := sqrtLoop n 0 (n + 1) n

/-- Exact square root of a nonnegative rational, when it is rational:
`ratSqrtQ v = some s` only if `v = s * s` with `0 ≤ s` (the final guard
checks the candidate, so this holds by construction).  Used to keep `RV`
values canonical (a radical part is kept only when it is irrational). -/
def ratSqrtQ (v : ℚ) : Option ℚ :=
  if v < 0 then none
  else if (natSqrtE v.num.toNat * natSqrtE v.num.toNat : ℤ) = v.num ∧
      natSqrtE v.den * natSqrtE v.den = v.den then
    some ((natSqrtE v.num.toNat : ℚ) / (natSqrtE v.den : ℚ))
  else none

/-- The numeric domain of the embedding: IEEE-double results of the
modelled computations.  `val p q r` denotes the finite value `p + q * √r`.
Canonical form (maintained by the smart constructor `RV.mk`): if `q = 0`
then `r = 0`; if `q ≠ 0` then `r` is a positive rational that is not a
square of a rational. -/
inductive RV where
  | nan : RV
  | pinf : RV
  | ninf : RV
  | val (p q r : ℚ) : RV
deriving DecidableEq, Repr

/-- Sign of a rational as an integer. -/
def qsgn (a : ℚ) : Int :=
  if a < 0 then -1 else if a = 0 then 0 else 1

/-- Sign of `a + b * √r` (for `0 ≤ r`), decided by squaring. -/
def fsgn (a b r : ℚ) : Int :=
  if r ≤ 0 ∨ b = 0 then qsgn a
  else if 0 < b then
    if 0 ≤ a then 1
    else if a * a < b * b * r then 1 else if b * b * r < a * a then -1 else 0
  else
    if a ≤ 0 then -1
    else if b * b * r < a * a then 1 else if a * a < b * b * r then -1 else 0

namespace RV

/-- Smart constructor: canonicalizes `p + q * √r`. -/
def mk (p q r : ℚ) : RV :=
  if q = 0 then .val p 0 0
  else
    match ratSqrtQ r with
    | some s => .val (p + q * s) 0 0
    | none => .val p q r

/-- Embed a rational. -/
def ofQ (a : ℚ) : RV := .val a 0 0

/-- Sum of two finite values.  Distinct irrational radicals cannot be
represented; that case never arises in the modelled computations and is
mapped to `nan`. -/
def addF (p q r pp qq rr : ℚ) : RV :=
  if q = 0 then mk (p + pp) qq rr
  else if qq = 0 then mk (p + pp) q r
  else if r = rr then mk (p + pp) (q + qq) r
  else .nan

/-- Product of two finite values (same caveat as `addF`). -/
def mulF (p q r pp qq rr : ℚ) : RV :=
  if q = 0 then mk (p * pp) (p * qq) rr
  else if qq = 0 then mk (p * pp) (pp * q) r
  else if r = rr then mk (p * pp + q * qq * r) (p * qq + pp * q) r
  else .nan

/-- Strict comparison of two finite values (same caveat as `addF`). -/
def ltF (p q r pp qq rr : ℚ) : Bool :=
  if q = 0 then fsgn (p - pp) (-qq) rr < 0
  else if qq = 0 then fsgn (p - pp) q r < 0
  else if r = rr then fsgn (p - pp) (q - qq) r < 0
  else false

/-- IEEE `<`: NaN compares false with everything. -/
def lt : RV → RV → Bool
  | .nan, _ => false
  | _, .nan => false
  | .ninf, .ninf => false
  | .ninf, _ => true
  | _, .ninf => false
  | .pinf, _ => false
  | _, .pinf => true
  | .val p q r, .val pp qq rr => ltF p q r pp qq rr

/-- Sign of a value (callers exclude `nan` first). -/
def sgn : RV → Int
  | .nan => 0
  | .pinf => 1
  | .ninf => -1
  | .val p q r => fsgn p q r

/-- IEEE addition. -/
def add : RV → RV → RV
  | .nan, _ => .nan
  | _, .nan => .nan
  | .pinf, .ninf => .nan
  | .ninf, .pinf => .nan
  | .pinf, _ => .pinf
  | _, .pinf => .pinf
  | .ninf, _ => .ninf
  | _, .ninf => .ninf
  | .val p q r, .val pp qq rr => addF p q r pp qq rr

/-- IEEE negation. -/
def neg : RV → RV
  | .nan => .nan
  | .pinf => .ninf
  | .ninf => .pinf
  | .val p q r => .val (-p) (-q) r

/-- IEEE subtraction. -/
def sub (a b : RV) : RV := add a (neg b)

/-- An infinity of sign `s` times the (non-NaN) value `b`. -/
def infMul (s : Int) (b : RV) : RV :=
  let t := sgn b * s
  if t = 0 then .nan else if 0 < t then .pinf else .ninf

/-- IEEE multiplication. -/
def mul : RV → RV → RV
  | .nan, _ => .nan
  | _, .nan => .nan
  | .pinf, b => infMul 1 b
  | .ninf, b => infMul (-1) b
  | a, .pinf => infMul 1 a
  | a, .ninf => infMul (-1) a
  | .val p q r, .val pp qq rr => mulF p q r pp qq rr

/-- Reciprocal of a nonzero finite value, via the conjugate.  On canonical
nonzero values the conjugate denominator is nonzero; the `nan` branch is
unreachable. -/
def recipF (p q r : ℚ) : RV :=
  let d := p * p - q * q * r
  if d = 0 then .nan
  else mk (p / d) (-q / d) r

/-- IEEE division.  A zero denominator with nonzero numerator gives a
signed infinity (all zeros produced by the modelled code are `+0`);
`0/0`, `inf/inf` give NaN. -/
def div : RV → RV → RV
  | .nan, _ => .nan
  | _, .nan => .nan
  | .pinf, .pinf => .nan
  | .pinf, .ninf => .nan
  | .ninf, .pinf => .nan
  | .ninf, .ninf => .nan
  | .pinf, .val p q r => if fsgn p q r < 0 then .ninf else .pinf
  | .ninf, .val p q r => if fsgn p q r < 0 then .pinf else .ninf
  | .val _ _ _, .pinf => .val 0 0 0
  | .val _ _ _, .ninf => .val 0 0 0
  | .val p q r, .val pp qq rr =>
    if fsgn pp qq rr = 0 then
      let s := fsgn p q r
      if s = 0 then .nan else if 0 < s then .pinf else .ninf
    else mul (.val p q r) (recipF pp qq rr)

/-- IEEE square root.  A radical-carrying argument would need a nested
radical; it never arises in the claims below and is mapped to `nan`. -/
def sqrt : RV → RV
  | .nan => .nan
  | .ninf => .nan
  | .pinf => .pinf
  | .val p q _ =>
    if q ≠ 0 then .nan
    else if p < 0 then .nan
    else
      match ratSqrtQ p with
      | some s => .val s 0 0
      | none => .val 0 1 p

/-- IEEE absolute value. -/
def abs (a : RV) : RV := if lt a (.val 0 0 0) then neg a else a

/-- CPython two-argument `min(a, b)`: returns `b` iff `b < a`. -/
def pyMin (a b : RV) : RV := if lt b a then b else a

/-- CPython two-argument `max(a, b)`: returns `b` iff `a < b`. -/
def pyMax (a b : RV) : RV := if lt a b then b else a

end RV

/-- CPython two-argument `min` on floats that are exact rationals. -/
def pyMinQ (a b : ℚ) : ℚ := if b < a then b else a

/-- CPython two-argument `max` on floats that are exact rationals. -/
def pyMaxQ (a b : ℚ) : ℚ := if a < b then b else a

/-- Python `abs` on a float that is an exact rational. -/
def qabs (a : ℚ) : ℚ := if a < 0 then -a else a

/-! ### Pandas statistics on a rational series -/

/-- `pandas.Series.mean` of a rational series as a rational; only used
behind a nonemptiness guard. -/
def meanQ (l : List ℚ) : ℚ := l.sum / (l.length : ℚ)

/-- `pandas.Series.mean`: NaN on an empty series. -/
def meanRV (l : List ℚ) : RV := if l.isEmpty then .nan else .ofQ (meanQ l)

/-- Sample variance with `ddof = 1` (the pandas default); only used behind
a length guard. -/
def varQ (l : List ℚ) : ℚ :=
  ((l.map fun x => (x - meanQ l) * (x - meanQ l)).sum) / ((l.length : ℚ) - 1)

/-- `pandas.Series.std` (`ddof = 1`): NaN for fewer than two points. -/
def stdRV (l : List ℚ) : RV :=
  if l.length ≤ 1 then .nan else RV.sqrt (.ofQ (varQ l))

/-- Mean of `series.tail(k)` (the last `min(k, len)` observations). -/
def tailMeanRV (k : ℕ) (l : List ℚ) : RV := meanRV (l.drop (l.length - k))

/-- Insertion into a sorted rational list. -/
def insertQ (x : ℚ) : List ℚ → List ℚ
  | [] => [x]
  | y :: ys => if x ≤ y then x :: y :: ys else y :: insertQ x ys

/-- Insertion sort (ascending), as used by the quantile computation. -/
def sortQ : List ℚ → List ℚ
  | [] => []
  | x :: xs => insertQ x (sortQ xs)

/-- `pandas.Series.quantile` with the default linear interpolation:
the value at position `h * (n - 1)` of the sorted series, interpolating
linearly between neighbours; NaN on an empty series. -/
def quantileRV (h : ℚ) (l : List ℚ) : RV :=
  if l.isEmpty then .nan
  else
    let s := sortQ l
    let pos : ℚ := h * ((l.length : ℚ) - 1)
    let i : ℕ := pos.floor.toNat
    let frac : ℚ := pos - (i : ℚ)
    if frac = 0 then .ofQ (s.getD i 0)
    else .ofQ (s.getD i 0 + frac * (s.getD (i + 1) 0 - s.getD i 0))

/-- `pandas.Series.median`, i.e. the 0.5 quantile. -/
def medianRV (l : List ℚ) : RV := quantileRV (1 / 2) l

/-! ### `PerformanceAnalyzer.detect_outliers`
(`src/core/performance_analyzer.py`, lines 27-54) -/

/-- The statistics dictionary returned by `detect_outliers`
(`total_outliers` is a numpy integer, the rest are floats). -/
structure OutlierStats where
  totalOutliers : ℕ
  outlierPercentage : RV
  lowerBound : RV
  upperBound : RV
deriving DecidableEq, Repr

/-- `PerformanceAnalyzer.detect_outliers(data)` with IQR multiplier `k`
(`self.threshold_multiplier`): quartile bounds `Q1 - k*IQR`,
`Q3 + k*IQR`, boolean mask `(data < lower) | (data > upper)`, and the
stats dictionary.  `outlier_percentage = outliers.sum() / len(data) * 100`
is a numpy float division (no exception on an empty series). -/
def detectOutliers (k : ℚ) (data : List ℚ) : List Bool × OutlierStats :=
  let q1 := quantileRV (1 / 4) data
  let q3 := quantileRV (3 / 4) data
  let iqr := RV.sub q3 q1
  let lower := RV.sub q1 (RV.mul (.ofQ k) iqr)
  let upper := RV.add q3 (RV.mul (.ofQ k) iqr)
  let mask := data.map fun x => RV.lt (.ofQ x) lower || RV.lt upper (.ofQ x)
  let t := (mask.filter fun b => b).length
  (mask,
    { totalOutliers := t
      outlierPercentage := RV.mul (RV.div (.ofQ (t : ℚ)) (.ofQ (data.length : ℚ))) (.ofQ 100)
      lowerBound := lower
      upperBound := upper })

/-! ### `PerformanceAnalyzer._analyze_improvement_needs`
(`src/core/performance_analyzer.py`, lines 126-174) -/

/-- The `improvement_analysis` dictionary. -/
structure ImprovementAnalysis where
  needsImprovement : Bool
  zScore : RV
  recentMean : RV
  vsHistorical : RV
  suggestedTarget : RV
deriving DecidableEq, Repr

/-- The `metric_configs` table with its `.get` fallback:
`(threshold, higher_better)` per metric name. -/
def metricConfig (metric : String) : ℚ × Bool :=
  if metric = "accuracy" then (-1, true)
  else if metric = "reaction_time" then (1, false)
  else if metric = "decision_making" then (-1, true)
  else if metric = "teamwork" then (-1, true)
  else (-1, true)

/-- `PerformanceAnalyzer._analyze_improvement_needs(raw_data, clean_data,
metric)`: recent mean of the last 5 raw observations, historical mean/std
of the outlier-free series, `z = (recent - hist_mean) / hist_std` (an IEEE
division: NaN or a signed infinity when the std is zero),
`needs_improvement` by the polarity table, and
`suggested_target = hist_mean ± hist_std`. -/
def analyzeImprovementNeeds (raw clean : List ℚ) (metric : String) : ImprovementAnalysis :=
  let recentMean := tailMeanRV 5 raw
  let historicalMean := meanRV clean
  let historicalStd := stdRV clean
  let cfg := metricConfig metric
  let z := RV.div (RV.sub recentMean historicalMean) historicalStd
  { needsImprovement := if cfg.2 then RV.lt z (.ofQ cfg.1) else RV.lt (.ofQ cfg.1) z
    zScore := z
    recentMean := recentMean
    vsHistorical :=
      RV.mul (RV.div (RV.sub recentMean historicalMean) historicalMean) (.ofQ 100)
    suggestedTarget :=
      RV.add historicalMean (if cfg.2 then historicalStd else RV.neg historicalStd) }

/-! ### `scipy.stats.linregress` on `x = arange(n)`
Both call sites (`PerformanceAnalyzer._calculate_trend` and
`ProgressTracker._analyze_trend`) regress against `x = np.arange(len(y))`,
so the embedding is specialised to that `x`.  The p-value is
`2 * t.sf(|t|, df)`; the Student-t tail probability is an external
numerical routine, abstracted as the parameter `pSF` (no claim below
depends on its values). -/

/-- Python exceptions relevant to the modelled code paths. -/
inductive PyError where
  | valueError (msg : String) : PyError
  /-- Modelled from the spec: the spec's error taxonomy (§7) names an
  `InsufficientData` condition.  No code path in the repository raises any
  such dedicated condition; this constructor exists only so that claims
  about it can be stated. -/
  | insufficientData : PyError
deriving DecidableEq, Repr

deriving instance DecidableEq for Except

/-- The fields of scipy's `LinregressResult` that the repository uses
(`slope`, `intercept`, `rvalue`, `pvalue`; the standard errors are never
read by this code and are omitted). -/
structure LinReg where
  slope : RV
  intercept : RV
  rvalue : RV
  pvalue : RV
deriving DecidableEq, Repr

/-- The arithmetic core of `scipy.stats.linregress(arange(n), y)` (after
its input checks): bias-1 second moments, `r = ssxym / sqrt(ssxm*ssym)`
(set to `0.0` when either variance vanishes, then clamped to `[-1, 1]`),
`slope = ssxym / ssxm`, and the two-sided p-value through the abstract
t-tail `pSF`.  `TINY = 1e-20` exactly as in scipy. -/
def linregressCore (pSF : RV → RV → RV) (y : List ℚ) : LinReg :=
  let n := y.length
  let xm : ℚ := ((n : ℚ) - 1) / 2
  let ym : ℚ := meanQ y
  let xs : List ℚ := (List.range n).map fun i : ℕ => (i : ℚ)
  let ssxm : ℚ := ((xs.map fun x => (x - xm) * (x - xm)).sum) / (n : ℚ)
  let ssym : ℚ := ((y.map fun v => (v - ym) * (v - ym)).sum) / (n : ℚ)
  let ssxym : ℚ := (((xs.zip y).map fun p => (p.1 - xm) * (p.2 - ym)).sum) / (n : ℚ)
  let r : RV :=
    if ssxm = 0 ∨ ssym = 0 then .ofQ 0
    else
      let r0 := RV.div (.ofQ ssxym) (RV.sqrt (.ofQ (ssxm * ssym)))
      if RV.lt (.ofQ 1) r0 then .ofQ 1
      else if RV.lt r0 (.ofQ (-1)) then .ofQ (-1)
      else r0
  let slope := RV.div (.ofQ ssxym) (.ofQ ssxm)
  let df : ℚ := (n : ℚ) - 2
  let tiny : ℚ := 1 / 100000000000000000000
  let t := RV.mul r (RV.sqrt (RV.div (.ofQ df)
    (RV.mul (RV.add (RV.sub (.ofQ 1) r) (.ofQ tiny))
            (RV.add (RV.add (.ofQ 1) r) (.ofQ tiny)))))
  { slope := slope
    intercept := RV.sub (.ofQ ym) (RV.mul slope (.ofQ xm))
    rvalue := r
    pvalue := RV.mul (.ofQ 2) (pSF (RV.abs t) (.ofQ df)) }

/-- `scipy.stats.linregress(arange(n), y)` including its input checks: an
empty input raises `ValueError`, as does a constant `x` of length `> 1`
(never the case for `arange`, kept for faithfulness). -/
def linregress (pSF : RV → RV → RV) (y : List ℚ) : Except PyError LinReg :=
  if y.length = 0 then .error (.valueError ("Inputs must not be empty."))
  else if 1 < y.length ∧ y.length - 1 = 0 then
    .error (.valueError ("Cannot calculate a linear regression if all x values are identical"))
  else .ok (linregressCore pSF y)

/-- A constant stand-in for the Student-t tail probability, used to obtain
closed instances; no claim depends on the p-value. -/
def tSFZero : RV → RV → RV := fun _ _ => .val 0 0 0

/-! ### `PerformanceAnalyzer._calculate_trend`
(`src/core/performance_analyzer.py`, lines 100-124) -/

/-- The `trend_info` dictionary. -/
structure TrendInfo where
  direction : String
  slope : RV
  rSquared : RV
  significance : Bool
  strength : String
deriving DecidableEq, Repr

/-- `PerformanceAnalyzer._calculate_trend(data)`: unguarded scipy linear
regression of the series against `arange(len(data))`; any scipy exception
propagates. -/
def calculateTrend (pSF : RV → RV → RV) (data : List ℚ) : Except PyError TrendInfo := do
  let lr ← linregress pSF data
  let trendStrength := RV.abs lr.rvalue
  .ok
    { direction := if RV.lt (.ofQ 0) lr.slope then "improving" else "declining"
      slope := lr.slope
      rSquared := RV.mul lr.rvalue lr.rvalue
      significance := RV.lt lr.pvalue (.ofQ (1 / 20))
      strength :=
        if RV.lt (.ofQ (7 / 10)) trendStrength then "strong"
        else if RV.lt (.ofQ (3 / 10)) trendStrength then "moderate"
        else "weak" }

/-! ### One column of `PerformanceAnalyzer.analyze_performance`
(`src/core/performance_analyzer.py`, lines 56-98) -/

/-- The `clean_stats` sub-dictionary. -/
structure CleanStats where
  mean : RV
  median : RV
  std : RV
deriving DecidableEq, Repr

/-- The per-metric record built by `analyze_performance`:
`current_stats`, `outlier_stats`, `clean_stats` and the improvement
analysis. -/
structure AnalyzedMetric where
  mean : RV
  median : RV
  std : RV
  trend : TrendInfo
  outlierMask : List Bool
  outlierStats : OutlierStats
  cleanStats : CleanStats
  improvement : ImprovementAnalysis
deriving DecidableEq, Repr

/-- `analyze_performance` for one metric column: detect outliers, filter
the clean series `data[~outliers]`, compute the statistics and the
improvement analysis.  A scipy exception from `_calculate_trend`
propagates out. -/
def analyzeMetric (pSF : RV → RV → RV) (k : ℚ) (metric : String) (data : List ℚ) :
    Except PyError AnalyzedMetric := do
  let od := detectOutliers k data
  let clean := ((data.zip od.1).filter fun p => !p.2).map (·.1)
  let tr ← calculateTrend pSF data
  .ok
    { mean := meanRV data
      median := medianRV data
      std := stdRV data
      trend := tr
      outlierMask := od.1
      outlierStats := od.2
      cleanStats := { mean := meanRV clean, median := medianRV clean, std := stdRV clean }
      improvement := analyzeImprovementNeeds data clean metric }

/-! ### `ProgressTracker._calculate_consistency`
(`src/core/progress_tracker.py`, lines 181-200) -/

/-- `ProgressTracker._calculate_consistency(data)`: 100 for fewer than two
points, otherwise `100 * (1 - min(cv, 1))` with `cv = std / mean` (an IEEE
division) and CPython argument order in `min`.  The source applies no
further clamp. -/
def consistencyRV (data : List ℚ) : RV :=
  if data.length < 2 then .ofQ 100
  else
    let cv := RV.div (stdRV data) (meanRV data)
    RV.mul (.ofQ 100) (RV.sub (.ofQ 1) (RV.pyMin cv (.ofQ 1)))

/-! ### `ProgressTracker._analyze_trend`
(`src/core/progress_tracker.py`, lines 111-143)
History rows carry an integer timestamp (days); `datetime.now()` is the
parameter `now`, so the cutoff for a window of `days` days is
`now - days`. -/

/-- One per-window entry of the `trend_analysis` dictionary. -/
structure TrendEntry where
  slope : RV
  direction : String
  strength : RV
  significance : Bool
  volatility : RV
deriving DecidableEq, Repr

/-- `history[history.index >= cutoff_date]` for a lookback of `days`. -/
def windowData (now : ℤ) (days : ℕ) (history : List (ℤ × ℚ)) : List (ℤ × ℚ) :=
  history.filter fun e => now - (days : ℤ) ≤ e.1

/-- `ProgressTracker._analyze_trend(history)`: one regression entry per
lookback window, entries for windows with fewer than 2 points omitted.
The guard `len(period_data) >= 2` makes the scipy call succeed, so
`linregressCore` is used directly. -/
def analyzeTrend (pSF : RV → RV → RV) (now : ℤ) (lookbacks : List (String × ℕ))
    (history : List (ℤ × ℚ)) : List (String × TrendEntry) :=
  lookbacks.filterMap fun lb =>
    let pd := (windowData now lb.2 history).map (·.2)
    if 2 ≤ pd.length then
      let lr := linregressCore pSF pd
      some (lb.1,
        { slope := lr.slope
          direction := if RV.lt (.ofQ 0) lr.slope then "improving" else "declining"
          strength := RV.abs lr.rvalue
          significance := RV.lt lr.pvalue (.ofQ (1 / 20))
          volatility := RV.div (stdRV pd) (meanRV pd) })
    else none

/-! ### `ProgressTracker._track_milestones`
(`src/core/progress_tracker.py`, lines 202-248) -/

/-- One milestone dictionary. -/
structure Milestone where
  level : ℕ
  value : ℚ
  progress : ℚ
deriving DecidableEq, Repr

/-- The `milestone_tracking` dictionary. -/
structure MilestoneTracking where
  totalProgress : ℚ
  nextMilestone : Option Milestone
  remainingMilestones : List Milestone
  completedMilestones : List Milestone
deriving DecidableEq, Repr

/-- `np.linspace(a, b, num)` over exact rationals. -/
def linspace (a b : ℚ) (num : ℕ) : List ℚ :=
  if num = 0 then []
  else if num = 1 then [a]
  else (List.range num).map fun i : ℕ => a + (i : ℚ) * (b - a) / ((num : ℚ) - 1)

/-- The milestone dictionary built for the `i`-th interpolated value
(`for i, value in enumerate(milestone_values[1:], 1)`):
`level = i`, the value itself, and
`progress = (value - current) / (target - current) * 100`. -/
def milestoneOf (current target : ℚ) (p : ℕ × ℚ) : Milestone :=
  { level := p.1 + 1, value := p.2
    progress := (p.2 - current) / (target - current) * 100 }

/-- One iteration of the milestone loop: a milestone is completed iff
`current_value >= value`; the first non-completed one becomes `next`, the
rest go to `remaining`. -/
def milestoneStep (current : ℚ) (acc : MilestoneTracking) (m : Milestone) : MilestoneTracking :=
  if m.value ≤ current then
    { acc with completedMilestones := acc.completedMilestones ++ [m] }
  else
    match acc.nextMilestone with
    | none => { acc with nextMilestone := some m }
    | some _ => { acc with remainingMilestones := acc.remainingMilestones ++ [m] }

/-- `ProgressTracker._track_milestones(current, target, num_milestones)`.
When `target == current` the initial dictionary is returned unchanged.
Otherwise `total_progress = max(0, min(100, (current-target)/|target-current| * 100))`
and the `num_milestones` interpolated values `linspace(current, target,
num+1)[1:]` are distributed over completed/next/remaining. -/
def trackMilestones (current target : ℚ) (num : ℕ) : MilestoneTracking :=
  let init : MilestoneTracking :=
    { totalProgress := 0, nextMilestone := none
      remainingMilestones := [], completedMilestones := [] }
  if target = current then init
  else
    let ms := ((linspace current target (num + 1)).drop 1).enum.map
      (milestoneOf current target)
    ms.foldl (milestoneStep current)
      { init with
        totalProgress :=
          pyMaxQ 0 (pyMinQ 100 ((current - target) / qabs (target - current) * 100)) }

/-- The milestone call of `ProgressTracker.track_progress`
(`src/core/progress_tracker.py`, lines 70-73):
`target_metrics.get(metric, current_value * 1.2)` with the default number
of milestones.  The decimal literal `1.2` is modelled as the exact `6/5`. -/
def milestoneForMetric (current : ℚ) (targetOpt : Option ℚ) : MilestoneTracking :=
  trackMilestones current (targetOpt.getD (current * (6 / 5))) 5

/-! ### `ProgressTracker._calculate_overall_progress`
(`src/core/progress_tracker.py`, lines 304-329)
The function reads, for each metric of the report, only
`milestone_progress['total_progress']` and the `(direction, strength)`
pairs of `trend_analysis`; its input is modelled accordingly. -/

/-- The part of one per-window trend entry read by the overall score. -/
structure OTrend where
  direction : String
  strength : ℚ
deriving DecidableEq, Repr

/-- The part of one metric entry of a progress report read by the overall
score. -/
structure OEntry where
  milestoneTotal : ℚ
  trends : List OTrend
deriving DecidableEq, Repr

/-- CPython `max(iterable)`: seeds with the first item, replaces whenever
`item > current`, and raises `ValueError` on an empty iterable. -/
def pyMaxListQ : List ℚ → Except PyError ℚ
  | [] => .error (.valueError ("max() arg is an empty sequence"))
  | x :: xs => .ok (xs.foldl (fun c i => if c < i then i else c) x)

/-- The generator `trend['strength'] if trend['direction'] == 'improving'
else -trend['strength']` over the trend entries of one metric. -/
def signedStrengths (e : OEntry) : List ℚ :=
  e.trends.map fun t => if t.direction = "improving" then t.strength else -t.strength

/-- `ProgressTracker._calculate_overall_progress(progress_report)`:
`0.0` for an empty report, otherwise
`min(100, max(0, mean of milestone_progress * (1 + max signed strength)))`;
the built-in `max` raises on a metric with an empty `trend_analysis`. -/
def overallProgress (entries : List OEntry) : Except PyError ℚ :=
  if entries.isEmpty then .ok 0
  else do
    let scores ← entries.mapM fun e => do
      let ts ← pyMaxListQ (signedStrengths e)
      .ok (e.milestoneTotal * (1 + ts))
    .ok (pyMinQ 100 (pyMaxQ 0 (scores.sum / (scores.length : ℚ))))

/-- The spec's formula for the overall score (one metric): the
strongest-signed trend strength across windows. -/
def specSignedMax (e : OEntry) : ℚ :=
  match signedStrengths e with
  | [] => 0
  | x :: xs => xs.foldl max x

/-- The spec's overall score (§4.5): per-metric
`milestone_progress * (1 + signed_strength)` averaged across metrics and
clamped to `[0, 100]`.  Stated separately from `overallProgress` so the
two can be compared. -/
def specOverall (entries : List OEntry) : ℚ :=
  min 100 (max 0
    (((entries.map fun e => e.milestoneTotal * (1 + specSignedMax e)).sum) /
      (entries.length : ℚ)))

/-- `Except.isOk` specialised to `PyError` results. -/
def exceptOk {α : Type} : Except PyError α → Bool
  | .ok _ => true
  | .error _ => false

/-- Semantic range predicate: the finite value `p + q * √r` denoted by an
`RV` lies in `[lo, hi]` (false for NaN and infinities). -/
def RVinRange (a : RV) (lo hi : ℝ) : Prop :=
  match a with
  | .val p q r => lo ≤ (p : ℝ) + (q : ℝ) * Real.sqrt (r : ℝ) ∧
      (p : ℝ) + (q : ℝ) * Real.sqrt (r : ℝ) ≤ hi
  | _ => False

/-- All milestone values of a tracking record, in loop order
(completed, then next, then remaining). -/
def milestoneValues (mt : MilestoneTracking) : List ℚ :=
  (mt.completedMilestones ++ mt.nextMilestone.toList ++ mt.remainingMilestones).map (·.value)

/-- The initial (and degenerate-case) milestone dictionary. -/
def emptyMilestones : MilestoneTracking :=
  { totalProgress := 0, nextMilestone := none
    remainingMilestones := [], completedMilestones := [] }

/-! ## Theorems -/

/-! ### Arithmetic facts about `RV` on rational values -/

theorem rv_mk_q0 (p r : ℚ) : RV.mk p 0 r = .val p 0 0 := by
  simp [RV.mk]

theorem rv_add_qq (a b : ℚ) : RV.add (.val a 0 0) (.val b 0 0) = .val (a + b) 0 0 := by
  simp [RV.add, RV.addF, rv_mk_q0]

theorem rv_neg_q (a : ℚ) : RV.neg (.val a 0 0) = .val (-a) 0 0 := by
  simp [RV.neg]

theorem rv_sub_qq (a b : ℚ) : RV.sub (.val a 0 0) (.val b 0 0) = .val (a - b) 0 0 := by
  rw [RV.sub, rv_neg_q, rv_add_qq, sub_eq_add_neg]

theorem qsgn_neg_iff (a : ℚ) : qsgn a < 0 ↔ a < 0 := by
  unfold qsgn
  split_ifs with h1 h2 <;> simp_all

theorem fsgn_q (a : ℚ) (b : ℚ) : fsgn a 0 b = qsgn a := by
  simp [fsgn]

theorem rv_lt_qq (a b : ℚ) : RV.lt (.val a 0 0) (.val b 0 0) = decide (a < b) := by
  show RV.ltF a 0 0 b 0 0 = decide (a < b)
  unfold RV.ltF
  simp only [if_pos rfl, neg_zero, fsgn_q]
  rcases lt_or_le a b with h | h
  · simp [(qsgn_neg_iff (a - b)).mpr (by linarith), h]
  · have : ¬ qsgn (a - b) < 0 := by
      rw [qsgn_neg_iff]; linarith
    simp [this, not_lt.mpr h]

theorem qsgn_ne_zero (b : ℚ) (hb : b ≠ 0) : qsgn b ≠ 0 := by
  unfold qsgn; split_ifs <;> simp_all

theorem rv_mul_qq (a b : ℚ) : RV.mul (.val a 0 0) (.val b 0 0) = .val (a * b) 0 0 := by
  show RV.mulF a 0 0 b 0 0 = _
  unfold RV.mulF
  rw [if_pos rfl]
  simp [rv_mk_q0]

theorem rv_recip_q (b : ℚ) (hb : b ≠ 0) : RV.recipF b 0 0 = .val (1 / b) 0 0 := by
  have hbb : b * b - 0 * 0 * (0 : ℚ) ≠ 0 := by simpa using mul_ne_zero hb hb
  unfold RV.recipF
  rw [if_neg hbb]
  simp only [neg_zero, zero_div, rv_mk_q0]
  congr 1
  field_simp

theorem rv_div_qq (a b : ℚ) (hb : b ≠ 0) :
    RV.div (.val a 0 0) (.val b 0 0) = .val (a / b) 0 0 := by
  show (if fsgn b 0 0 = 0 then _ else RV.mul (.val a 0 0) (RV.recipF b 0 0)) = _
  rw [fsgn_q, if_neg (qsgn_ne_zero b hb), rv_recip_q b hb, rv_mul_qq]
  congr 1
  field_simp

theorem metricConfig_cases (m : String) :
    ((metricConfig m).1 = -1 ∧ (metricConfig m).2 = true) ∨
    ((metricConfig m).1 = 1 ∧ (metricConfig m).2 = false) := by
  unfold metricConfig
  split_ifs <;> simp

/-- Claim C8: for any metric, if the clean series has a positive standard
deviation and the recent mean of the raw series equals the analysis's own
`suggested_target` (historical mean plus std for higher-is-better metrics,
minus std for lower-is-better ones), then `needs_improvement` is false. -/
theorem C8_round_trip (metric : String) (raw clean : List ℚ)
    (hstd : RV.lt (.ofQ 0) (stdRV clean) = true)
    (hround : (analyzeImprovementNeeds raw clean metric).recentMean =
      (analyzeImprovementNeeds raw clean metric).suggestedTarget) :
    (analyzeImprovementNeeds raw clean metric).needsImprovement = false := by
  simp only [analyzeImprovementNeeds] at hround ⊢
  by_cases hlen : clean.length ≤ 1
  · rw [stdRV, if_pos hlen] at hstd
    simp [RV.ofQ, RV.lt] at hstd
  have hne : clean.isEmpty = false := by
    cases clean
    · simp at hlen
    · rfl
  rw [stdRV, if_neg hlen] at hstd hround ⊢
  rw [meanRV, hne] at hround ⊢
  simp only [Bool.false_eq_true, if_false, RV.ofQ] at hstd hround ⊢
  by_cases hv : varQ clean < 0
  · rw [show RV.sqrt (.val (varQ clean) 0 0) = .nan by simp [RV.sqrt, hv]] at hstd
    simp [RV.lt] at hstd
  rcases hs : ratSqrtQ (varQ clean) with _ | s
  · -- irrational std: the round-trip hypothesis forces a rational to be
    -- irrational, impossible
    exfalso
    rw [show RV.sqrt (.val (varQ clean) 0 0) = .val 0 1 (varQ clean) by
      simp [RV.sqrt, hv, hs]] at hround
    rcases metricConfig_cases metric with ⟨h1, h2⟩ | ⟨h1, h2⟩ <;> rw [h2] at hround
    · rw [if_pos rfl] at hround
      rw [show RV.add (.val (meanQ clean) 0 0) (.val 0 1 (varQ clean)) =
          .val (meanQ clean) 1 (varQ clean) by
        show RV.addF _ 0 0 0 1 _ = _
        unfold RV.addF
        rw [if_pos rfl]
        unfold RV.mk
        rw [if_neg one_ne_zero, hs, add_zero]] at hround
      rcases hdrop : (raw.drop (raw.length - 5)).isEmpty with _ | _ <;>
        simp [tailMeanRV, meanRV, hdrop, RV.ofQ] at hround
    · rw [if_neg (by simp)] at hround
      rw [show RV.add (.val (meanQ clean) 0 0) (RV.neg (.val 0 1 (varQ clean))) =
          .val (meanQ clean) (-1) (varQ clean) by
        simp only [RV.neg, neg_zero]
        show RV.addF _ 0 0 0 (-1) _ = _
        unfold RV.addF
        rw [if_pos rfl]
        unfold RV.mk
        rw [if_neg (by norm_num : (-1 : ℚ) ≠ 0), hs, add_zero]] at hround
      rcases hdrop : (raw.drop (raw.length - 5)).isEmpty with _ | _ <;>
        simp [tailMeanRV, meanRV, hdrop, RV.ofQ] at hround
  -- rational positive std `s`
  rw [show RV.sqrt (.val (varQ clean) 0 0) = .val s 0 0 by
    simp [RV.sqrt, hv, hs]] at hstd hround ⊢
  have hspos : 0 < s := by
    rw [rv_lt_qq] at hstd
    exact of_decide_eq_true hstd
  have hsne : s ≠ 0 := ne_of_gt hspos
  rcases metricConfig_cases metric with ⟨h1, h2⟩ | ⟨h1, h2⟩ <;> rw [h2] at hround ⊢ <;> rw [h1]
  · rw [if_pos rfl] at hround ⊢
    rw [rv_add_qq] at hround
    rcases hdrop : (raw.drop (raw.length - 5)).isEmpty with _ | _
    · -- recent mean defined: it equals mean + std
      rw [show tailMeanRV 5 raw = .val (meanQ (raw.drop (raw.length - 5))) 0 0 by
        simp [tailMeanRV, meanRV, hdrop, RV.ofQ]] at hround ⊢
      have hm : meanQ (raw.drop (raw.length - 5)) = meanQ clean + s := by
        simpa [RV.val.injEq] using hround
      rw [rv_sub_qq, rv_div_qq _ _ hsne, hm]
      rw [show meanQ clean + s - meanQ clean = s by ring, div_self hsne, rv_lt_qq]
      exact decide_eq_false (by norm_num)
    · simp [tailMeanRV, meanRV, hdrop, RV.ofQ] at hround
  · rw [if_neg (by simp)] at hround ⊢
    rw [rv_neg_q, rv_add_qq] at hround
    rcases hdrop : (raw.drop (raw.length - 5)).isEmpty with _ | _
    · rw [show tailMeanRV 5 raw = .val (meanQ (raw.drop (raw.length - 5))) 0 0 by
        simp [tailMeanRV, meanRV, hdrop, RV.ofQ]] at hround ⊢
      have hm : meanQ (raw.drop (raw.length - 5)) = meanQ clean + -s := by
        simpa [RV.val.injEq] using hround
      rw [rv_sub_qq, rv_div_qq _ _ hsne, hm]
      rw [show meanQ clean + -s - meanQ clean = -s by ring]
      rw [show -s / s = -1 by field_simp, rv_lt_qq]
      exact decide_eq_false (by norm_num)
    · simp [tailMeanRV, meanRV, hdrop, RV.ofQ] at hround

/-- Claim C3 as amended: no code path signals an `InsufficientData`
condition.  For a sub-series of fewer than 2 points,
`PerformanceAnalyzer._calculate_trend` never returns such a condition: on
the empty series the regression raises a plain `ValueError`, and on a
single-point series it returns a degenerate trend result.  The per-window
computation (`ProgressTracker._analyze_trend`) does skip any lookback
window containing fewer than 2 points: removing such a window from the
configuration leaves the trend map unchanged. -/
theorem C3_amended :
    (∀ (pSF : RV → RV → RV) (data : List ℚ), data.length < 2 →
      calculateTrend pSF data ≠ .error PyError.insufficientData) ∧
    calculateTrend tSFZero [] = .error (.valueError ("Inputs must not be empty.")) ∧
    exceptOk (calculateTrend tSFZero [5]) = true ∧
    (∀ (pSF : RV → RV → RV) (now : ℤ) (nm : String) (days : ℕ)
        (lb1 lb2 : List (String × ℕ)) (history : List (ℤ × ℚ)),
      (windowData now days history).length < 2 →
      analyzeTrend pSF now (lb1 ++ (nm, days) :: lb2) history =
        analyzeTrend pSF now (lb1 ++ lb2) history) := by
  refine ⟨?_, by decide, by decide, ?_⟩
  · intro pSF data h
    match data with
    | [] => simp [calculateTrend, linregress, Bind.bind, Except.bind]
    | [x] => simp [calculateTrend, linregress, Bind.bind, Except.bind]
    | x :: y :: xs =>
      exfalso
      simp only [List.length_cons] at h
      omega
  · intro pSF now nm days lb1 lb2 history h
    unfold analyzeTrend
    rw [List.filterMap_append, List.filterMap_append]
    congr 1
    rw [List.filterMap_cons_none]
    simp only [List.length_map]
    rw [if_neg (by omega)]

/-- Witness for C3's amended statement: a single-point series yields no
`InsufficientData` signal, and a window whose data lies entirely before
the cutoff is skipped. -/
theorem C3_witness :
    calculateTrend tSFZero [5] ≠ .error PyError.insufficientData ∧
    analyzeTrend tSFZero 0 [("short_term", 7)] [(-100, 1)] =
      analyzeTrend tSFZero 0 [] [(-100, 1)] :=
  ⟨C3_amended.1 tSFZero [5] (by decide),
   C3_amended.2.2.2 tSFZero 0 "short_term" 7 [] [] [(-100, 1)] (by decide)⟩

/-! ### Overall progress (claims C4, C5) -/

theorem pyMinQ_eq_min (a b : ℚ) : pyMinQ a b = min a b := by
  unfold pyMinQ
  rcases lt_or_le b a with h | h
  · rw [if_pos h, min_eq_right (le_of_lt h)]
  · rw [if_neg (not_lt.mpr h), min_eq_left h]

theorem pyMaxQ_eq_max (a b : ℚ) : pyMaxQ a b = max a b := by
  unfold pyMaxQ
  rcases lt_or_le a b with h | h
  · rw [if_pos h, max_eq_right (le_of_lt h)]
  · rw [if_neg (not_lt.mpr h), max_eq_left h]

theorem pyMaxListQ_ok (e : OEntry) (h : e.trends ≠ []) :
    pyMaxListQ (signedStrengths e) = .ok (specSignedMax e) := by
  rcases hs : signedStrengths e with _ | ⟨x, xs⟩
  · exact absurd (List.map_eq_nil_iff.mp hs) h
  · unfold pyMaxListQ specSignedMax
    rw [hs]
    have hfun : (fun c i : ℚ => if c < i then i else c) = max := by
      funext c i
      rcases lt_or_le c i with h2 | h2
      · rw [if_pos h2, max_eq_right (le_of_lt h2)]
      · rw [if_neg (not_lt.mpr h2), max_eq_left h2]
    rw [hfun]

theorem mapM_scores (es : List OEntry) (h : ∀ e ∈ es, e.trends ≠ []) :
    (es.mapM fun e => do
      let ts ← pyMaxListQ (signedStrengths e)
      Except.ok (e.milestoneTotal * (1 + ts))) =
    Except.ok (es.map fun e => e.milestoneTotal * (1 + specSignedMax e)) := by
  induction es with
  | nil => rfl
  | cons e es ih =>
    rw [List.mapM_cons, pyMaxListQ_ok e (h e (List.mem_cons_self e es)),
      ih (fun x hx => h x (List.mem_cons_of_mem e hx))]
    rfl

/-- Claim C4: for a non-empty progress report in which every metric has at
least one trend window, the overall score equals the spec's formula
(per-metric `milestone_progress * (1 + strongest signed trend strength)`,
averaged across metrics and clamped), and that score lies in `[0, 100]`.
-/
theorem C4_overall_progress (entries : List OEntry) (hne : entries ≠ [])
    (htr : ∀ e ∈ entries, e.trends ≠ []) :
    overallProgress entries = .ok (specOverall entries) ∧
    0 ≤ specOverall entries ∧ specOverall entries ≤ 100 := by
  have hemp : entries.isEmpty = false := by
    cases entries
    · exact absurd rfl hne
    · rfl
  refine ⟨?_, le_min (by norm_num) (le_max_left 0 _), min_le_left _ _⟩
  unfold overallProgress
  rw [hemp]
  simp only [Bool.false_eq_true, if_false]
  rw [mapM_scores entries htr]
  simp only [Bind.bind, Except.bind]
  rw [specOverall, pyMinQ_eq_min, pyMaxQ_eq_max]
  simp [List.length_map]

/-- Witness for C4, with the pathological strengths from the claim:
two metrics with the same milestone progress 50, one with trend strength
1.0 improving, one with strength 1.0 declining. -/
theorem C4_witness :
    overallProgress
        [{ milestoneTotal := 50, trends := [{ direction := "improving", strength := 1 }] },
         { milestoneTotal := 50, trends := [{ direction := "declining", strength := 1 }] }] =
      .ok (specOverall
        [{ milestoneTotal := 50, trends := [{ direction := "improving", strength := 1 }] },
         { milestoneTotal := 50, trends := [{ direction := "declining", strength := 1 }] }]) ∧
    0 ≤ specOverall
        [{ milestoneTotal := 50, trends := [{ direction := "improving", strength := 1 }] },
         { milestoneTotal := 50, trends := [{ direction := "declining", strength := 1 }] }] ∧
    specOverall
        [{ milestoneTotal := 50, trends := [{ direction := "improving", strength := 1 }] },
         { milestoneTotal := 50, trends := [{ direction := "declining", strength := 1 }] }] ≤
      100 :=
  C4_overall_progress _ (by simp) (by decide)

/-! ### Milestones (claims C6, C10) -/

theorem milestoneStep_all_le (c : ℚ) (ms : List Milestone) (acc : MilestoneTracking)
    (h : ∀ m ∈ ms, m.value ≤ c) :
    ms.foldl (milestoneStep c) acc =
      { acc with completedMilestones := acc.completedMilestones ++ ms } := by
  induction ms generalizing acc with
  | nil => simp
  | cons m ms ih =>
    rw [List.foldl_cons]
    rw [show milestoneStep c acc m =
        { acc with completedMilestones := acc.completedMilestones ++ [m] } from by
      unfold milestoneStep
      rw [if_pos (h m (List.mem_cons_self m ms))]]
    rw [ih _ (fun x hx => h x (List.mem_cons_of_mem m hx))]
    simp

theorem milestoneStep_none_le (c : ℚ) (ms : List Milestone) (acc : MilestoneTracking)
    (h : ∀ m ∈ ms, ¬ m.value ≤ c) (hsome : acc.nextMilestone.isSome) :
    ms.foldl (milestoneStep c) acc =
      { acc with remainingMilestones := acc.remainingMilestones ++ ms } := by
  induction ms generalizing acc with
  | nil => simp
  | cons m ms ih =>
    rw [List.foldl_cons]
    rcases hx : acc.nextMilestone with _ | x
    · rw [hx] at hsome
      simp at hsome
    · have hstep : milestoneStep c acc m =
          { acc with remainingMilestones := acc.remainingMilestones ++ [m] } := by
        simp only [milestoneStep, if_neg (h m (List.mem_cons_self m ms)), hx]
      rw [hstep, ih { acc with remainingMilestones := acc.remainingMilestones ++ [m] }
        (fun y hy => h y (List.mem_cons_of_mem m hy)) (by simp [hx])]
      simp [List.append_assoc, hx]

theorem milestoneStep_none_start (c : ℚ) (m : Milestone) (ms : List Milestone)
    (acc : MilestoneTracking) (h : ∀ x ∈ m :: ms, ¬ x.value ≤ c)
    (hnone : acc.nextMilestone = none) :
    (m :: ms).foldl (milestoneStep c) acc =
      { acc with nextMilestone := some m,
                 remainingMilestones := acc.remainingMilestones ++ ms } := by
  rw [List.foldl_cons]
  rw [show milestoneStep c acc m = { acc with nextMilestone := some m } from by
    unfold milestoneStep
    rw [if_neg (h m (List.mem_cons_self m ms)), hnone]]
  rw [milestoneStep_none_le c ms _ (fun x hx => h x (List.mem_cons_of_mem m hx)) (by simp)]

/-- The milestone values produced by `_track_milestones` are precisely
`linspace(current, target, num+1)[1:]`, in order, whenever the guard
`target != current` is taken. -/
theorem milestoneOf_map_value (current target : ℚ) (Y : List ℚ) :
    ((Y.enum.map (milestoneOf current target)).map fun m => m.value) = Y := by
  rw [List.map_map]
  rw [show ((fun m : Milestone => m.value) ∘ milestoneOf current target) = Prod.snd from rfl]
  exact List.enum_map_snd Y

theorem milestoneOf_mem_value (current target : ℚ) (Y : List ℚ) (m : Milestone)
    (hm : m ∈ Y.enum.map (milestoneOf current target)) : m.value ∈ Y := by
  rcases List.mem_map.mp hm with ⟨p, hp, rfl⟩
  have h2 := List.mem_map_of_mem Prod.snd hp
  rwa [List.enum_map_snd] at h2

theorem linspace_drop_form (a b : ℚ) (num : ℕ) (hn : 0 < num) :
    ∀ v ∈ (linspace a b (num + 1)).drop 1,
      ∃ i : ℕ, 1 ≤ i ∧ v = a + (i : ℚ) * (b - a) / (num : ℚ) := by
  intro v hv
  rw [linspace] at hv
  rw [if_neg (by omega), if_neg (by omega), List.range_succ_eq_map] at hv
  simp only [List.map_cons, List.drop_succ_cons, List.drop_zero, List.map_map] at hv
  rcases List.mem_map.mp hv with ⟨j, hj, rfl⟩
  refine ⟨j + 1, by omega, ?_⟩
  simp only [Function.comp_apply]
  push_cast
  ring

theorem trackMilestones_values (current target : ℚ) (num : ℕ) (h : target ≠ current) :
    milestoneValues (trackMilestones current target num) =
      (linspace current target (num + 1)).drop 1 := by
  rcases Nat.eq_zero_or_pos num with hn | hn
  · subst hn
    simp [trackMilestones, h, linspace, milestoneValues]
  have hnum : (0 : ℚ) < (num : ℚ) := by exact_mod_cast hn
  have hvals := linspace_drop_form current target num hn
  simp only [trackMilestones, if_neg h]
  rcases lt_or_gt_of_ne h with hlt | hgt
  · -- target < current: every milestone is below current, all completed
    rw [milestoneStep_all_le current _ _ (by
      intro m hm
      rcases hvals _ (milestoneOf_mem_value current target _ m hm) with ⟨i, hi1, hiv⟩
      have : (i : ℚ) * (target - current) / (num : ℚ) < 0 := by
        apply div_neg_of_neg_of_pos _ hnum
        apply mul_neg_of_pos_of_neg _ (by linarith)
        exact_mod_cast hi1
      rw [hiv]
      linarith)]
    rw [milestoneValues]
    simp only [List.nil_append, List.append_nil, Option.toList_none]
    exact milestoneOf_map_value current target _
  · -- current < target: no milestone is below current
    have hnot : ∀ m ∈ ((linspace current target (num + 1)).drop 1).enum.map
        (milestoneOf current target), ¬ m.value ≤ current := by
      intro m hm
      rcases hvals _ (milestoneOf_mem_value current target _ m hm) with ⟨i, hi1, hiv⟩
      have : 0 < (i : ℚ) * (target - current) / (num : ℚ) := by
        apply div_pos _ hnum
        apply mul_pos _ (by linarith)
        exact_mod_cast hi1
      rw [hiv]
      linarith
    rcases hms : ((linspace current target (num + 1)).drop 1).enum.map
        (milestoneOf current target) with _ | ⟨m, mrest⟩
    · have hY := milestoneOf_map_value current target
        ((linspace current target (num + 1)).drop 1)
      rw [hms] at hY
      simp only [List.foldl_nil, milestoneValues, Option.toList_none, List.nil_append,
        List.append_nil]
      simpa using hY
    · have hY := milestoneOf_map_value current target
        ((linspace current target (num + 1)).drop 1)
      rw [hms] at hY
      rw [hms] at hnot
      rw [milestoneStep_none_start current m mrest _ hnot rfl]
      rw [milestoneValues]
      simpa using hY

/-! ### Consistency score (claim C7) -/

theorem varQ_nonneg (l : List ℚ) (hlen : 2 ≤ l.length) : 0 ≤ varQ l := by
  unfold varQ
  apply div_nonneg
  · apply List.sum_nonneg
    intro x hx
    rcases List.mem_map.mp hx with ⟨y, hy, rfl⟩
    exact mul_self_nonneg _
  · have h2 : (2 : ℚ) ≤ (l.length : ℚ) := by exact_mod_cast hlen
    linarith

theorem ratSqrtQ_zero : ratSqrtQ 0 = some 0 := by decide

theorem ratSqrtQ_correct (v s : ℚ) (h : ratSqrtQ v = some s) : 0 ≤ s ∧ s * s = v := by
  unfold ratSqrtQ at h
  split_ifs at h with h1 h2
  · obtain ⟨hn, hd⟩ := h2
    obtain rfl : ((natSqrtE v.num.toNat : ℚ) / (natSqrtE v.den : ℚ)) = s :=
      Option.some.inj h
    refine ⟨div_nonneg (Nat.cast_nonneg _) (Nat.cast_nonneg _), ?_⟩
    rw [div_mul_div_comm]
    have hnum : ((natSqrtE v.num.toNat : ℚ) * (natSqrtE v.num.toNat : ℚ)) = (v.num : ℚ) := by
      exact_mod_cast congrArg (fun z : ℤ => (z : ℚ)) hn
    have hden : ((natSqrtE v.den : ℚ) * (natSqrtE v.den : ℚ)) = (v.den : ℚ) := by
      exact_mod_cast congrArg (fun n : ℕ => (n : ℚ)) hd
    rw [hnum, hden, Rat.num_div_den]

theorem fsgn_neg_radical (a b r : ℚ) (hr : 0 < r) (hb : b < 0) (ha : 0 < a) :
    (fsgn a b r < 0) ↔ (a * a < b * b * r) := by
  unfold fsgn
  rw [if_neg (by push_neg; exact ⟨hr, ne_of_lt hb⟩)]
  rw [if_neg (not_lt.mpr (le_of_lt hb))]
  rw [if_neg (not_le.mpr ha)]
  by_cases hc : b * b * r < a * a
  · rw [if_pos hc]
    exact iff_of_false (by norm_num) (lt_asymm hc)
  · rw [if_neg hc]
    by_cases hc2 : a * a < b * b * r
    · rw [if_pos hc2]
      exact iff_of_true (by norm_num) hc2
    · rw [if_neg hc2]
      exact iff_of_false (by norm_num) hc2

theorem rv_lt_one_rad (X v : ℚ) (hv : 0 < v) (hX : 0 < X) :
    RV.lt (.val 1 0 0) (.val 0 X v) = decide (1 < X * X * v) := by
  show RV.ltF 1 0 0 0 X v = _
  unfold RV.ltF
  rw [if_pos rfl]
  rw [decide_eq_decide]
  rw [show (1 : ℚ) - 0 = 1 from by norm_num]
  rw [fsgn_neg_radical 1 (-X) v hv (by linarith) (by norm_num)]
  constructor <;> intro hh <;> nlinarith

/-- Claim C7 as amended: the consistency score is exactly
`100 * (1 - min(cv, 1))` with no further clamp.  A window with fewer than
2 points scores exactly 100; a window with at least 2 points and positive
mean scores within `[0, 100]`; but a window with negative mean can exceed
100 (the two-point window `[-1, -3]` scores `100 + 50 * √2`). -/
theorem C7_amended :
    (∀ data : List ℚ, data.length < 2 → consistencyRV data = .ofQ 100) ∧
    (∀ data : List ℚ, 2 ≤ data.length → 0 < meanQ data →
      RVinRange (consistencyRV data) 0 100) ∧
    ¬ RVinRange (consistencyRV [-1, -3]) 0 100 := by
  refine ⟨?_, ?_, ?_⟩
  · intro data hlen
    rw [consistencyRV, if_pos hlen]
  · intro data hlen hmean
    have hne : data.isEmpty = false := by
      cases data
      · simp at hlen
      · rfl
    have hmne : meanQ data ≠ 0 := ne_of_gt hmean
    have hv0 : 0 ≤ varQ data := varQ_nonneg data hlen
    rw [consistencyRV, if_neg (by omega)]
    rw [stdRV, if_neg (by omega), meanRV, hne]
    simp only [Bool.false_eq_true, if_false, RV.ofQ]
    rcases hs : ratSqrtQ (varQ data) with _ | s
    · -- irrational std
      have hvpos : 0 < varQ data := by
        rcases lt_or_eq_of_le hv0 with hlt | heq
        · exact hlt
        · rw [← heq] at hs
          rw [ratSqrtQ_zero] at hs
          exact absurd hs (by simp)
      have hsqrt : RV.sqrt (.val (varQ data) 0 0) = .val 0 1 (varQ data) := by
        simp only [RV.sqrt]
        rw [if_neg (by simp), if_neg (not_lt.mpr hv0), hs]
      rw [hsqrt]
      set X : ℚ := 1 / meanQ data with hXdef
      have hX : 0 < X := one_div_pos.mpr hmean
      have hXne : X ≠ 0 := ne_of_gt hX
      have hcv : RV.div (.val 0 1 (varQ data)) (.val (meanQ data) 0 0) =
          .val 0 X (varQ data) := by
        show (if fsgn (meanQ data) 0 0 = 0 then _
          else RV.mul _ (RV.recipF (meanQ data) 0 0)) = _
        rw [fsgn_q, if_neg (qsgn_ne_zero _ hmne), rv_recip_q _ hmne]
        show RV.mulF 0 1 (varQ data) X 0 0 = _
        unfold RV.mulF
        rw [if_neg one_ne_zero, if_pos rfl]
        rw [show (0 : ℚ) * X = 0 from by ring, show X * 1 = X from by ring]
        unfold RV.mk
        rw [if_neg hXne, hs]
      rw [hcv, RV.pyMin, rv_lt_one_rad X (varQ data) hvpos hX]
      by_cases hc : 1 < X * X * varQ data
      · rw [if_pos (by simp [hc])]
        rw [rv_sub_qq, rv_mul_qq]
        simp only [RVinRange]
        norm_num
      · rw [if_neg (by simp [hc])]
        have hsub : RV.sub (.val 1 0 0) (.val 0 X (varQ data)) =
            .val 1 (-X) (varQ data) := by
          rw [RV.sub]
          simp only [RV.neg, neg_zero]
          show RV.addF 1 0 0 0 (-X) (varQ data) = _
          unfold RV.addF
          rw [if_pos rfl]
          unfold RV.mk
          rw [if_neg (neg_ne_zero.mpr hXne), hs]
          rw [add_zero]
        rw [hsub]
        have hmul : RV.mul (.val 100 0 0) (.val 1 (-X) (varQ data)) =
            .val 100 (-(100 * X)) (varQ data) := by
          show RV.mulF 100 0 0 1 (-X) (varQ data) = _
          unfold RV.mulF
          rw [if_pos rfl]
          rw [show (100 : ℚ) * 1 = 100 from by ring,
            show (100 : ℚ) * -X = -(100 * X) from by ring]
          unfold RV.mk
          rw [if_neg (neg_ne_zero.mpr (mul_ne_zero (by norm_num) hXne)), hs]
        rw [hmul]
        simp only [RVinRange]
        push_cast
        have hsq : Real.sqrt ((varQ data : ℚ) : ℝ) * Real.sqrt ((varQ data : ℚ) : ℝ) =
            ((varQ data : ℚ) : ℝ) :=
          Real.mul_self_sqrt (by exact_mod_cast hv0)
        have hsnn : 0 ≤ Real.sqrt ((varQ data : ℚ) : ℝ) := Real.sqrt_nonneg _
        have hXr : (0 : ℝ) < ((X : ℚ) : ℝ) := by exact_mod_cast hX
        have hcR : ((X : ℚ) : ℝ) * ((X : ℚ) : ℝ) * ((varQ data : ℚ) : ℝ) ≤ 1 := by
          exact_mod_cast not_lt.mp hc
        have hform : ((X : ℚ) : ℝ) * Real.sqrt ((varQ data : ℚ) : ℝ) =
            Real.sqrt (((X : ℚ) : ℝ) * ((X : ℚ) : ℝ) * ((varQ data : ℚ) : ℝ)) := by
          rw [Real.sqrt_mul (mul_self_nonneg _)]
          rw [Real.sqrt_mul_self (le_of_lt hXr)]
        have hle : ((X : ℚ) : ℝ) * Real.sqrt ((varQ data : ℚ) : ℝ) ≤ 1 := by
          rw [hform]
          calc Real.sqrt (((X : ℚ) : ℝ) * ((X : ℚ) : ℝ) * ((varQ data : ℚ) : ℝ)) ≤
              Real.sqrt 1 := Real.sqrt_le_sqrt hcR
            _ = 1 := Real.sqrt_one
        constructor <;> nlinarith [mul_nonneg (le_of_lt hXr) hsnn, hle]
    · -- rational std s with s * s = variance
      obtain ⟨hs0, hss⟩ := ratSqrtQ_correct _ _ hs
      have hsqrt : RV.sqrt (.val (varQ data) 0 0) = .val s 0 0 := by
        simp only [RV.sqrt]
        rw [if_neg (by simp), if_neg (not_lt.mpr hv0), hs]
      rw [hsqrt, rv_div_qq _ _ hmne, RV.pyMin, rv_lt_qq]
      have hc0 : 0 ≤ s / meanQ data := div_nonneg hs0 (le_of_lt hmean)
      by_cases hc : 1 < s / meanQ data
      · rw [if_pos (by simp [hc])]
        rw [rv_sub_qq, rv_mul_qq]
        simp only [RVinRange]
        norm_num
      · rw [if_neg (by simp [hc])]
        rw [rv_sub_qq, rv_mul_qq]
        simp only [RVinRange]
        push_cast
        have hc1 : s / meanQ data ≤ 1 := not_lt.mp hc
        have hcr0 : (0 : ℝ) ≤ ((s / meanQ data : ℚ) : ℝ) := by exact_mod_cast hc0
        have hcr1 : ((s / meanQ data : ℚ) : ℝ) ≤ 1 := by exact_mod_cast hc1
        rw [Real.sqrt_zero]
        push_cast at hcr0 hcr1
        constructor <;> nlinarith
  · intro h
    rw [show consistencyRV [-1, -3] = RV.val 100 50 2 from by decide] at h
    simp only [RVinRange] at h
    have h2 := h.2
    have hpos : (0 : ℝ) < Real.sqrt 2 := Real.sqrt_pos.mpr (by norm_num)
    push_cast at h2
    nlinarith [hpos]

/-- Witness for C7's amended statement: the single-point window `[3]`
scores exactly 100, and the positive-mean window `[1, 2]` scores within
`[0, 100]`. -/
theorem C7_witness :
    consistencyRV [3] = .ofQ 100 ∧ RVinRange (consistencyRV [1, 2]) 0 100 :=
  ⟨C7_amended.1 [3] (by decide), C7_amended.2.1 [1, 2] (by decide) (by decide)⟩

/-- Claim C6: for current 50, target 100 and 4 milestones, tracking
produces exactly the values `[62.5, 75, 87.5, 100]` with progress
`25/50/75/100`, all still ahead (`next` is the 62.5 milestone); in
general the milestone values are the `num` evenly spaced interpolated
values `linspace(current, target, num+1)[1:]`; and `track_progress`
defaults the target to `current * 1.2` when none is given. -/
theorem C6_milestones :
    trackMilestones 50 100 4 =
      { totalProgress := 0
        nextMilestone := some { level := 1, value := 125 / 2, progress := 25 }
        remainingMilestones :=
          [{ level := 2, value := 75, progress := 50 },
           { level := 3, value := 175 / 2, progress := 75 },
           { level := 4, value := 100, progress := 100 }]
        completedMilestones := [] } ∧
    (∀ (current target : ℚ) (num : ℕ), target ≠ current →
      milestoneValues (trackMilestones current target num) =
        (linspace current target (num + 1)).drop 1) ∧
    (∀ current : ℚ, milestoneForMetric current none =
      trackMilestones current (current * (6 / 5)) 5) := by
  refine ⟨by decide, trackMilestones_values, fun _ => rfl⟩

/-- Witness for C6's general interpolation statement at the claim's
instance. -/
theorem C6_witness :
    milestoneValues (trackMilestones 50 100 4) = (linspace 50 100 5).drop 1 :=
  C6_milestones.2.1 50 100 4 (by norm_num)

/-- Witness for C8: a higher-is-better instance (`accuracy`, clean series
`[11,11,9,9,10]` with mean 10 and std 1, recent raw mean `11 = 10 + 1`)
and a lower-is-better instance (`reaction_time`, recent raw mean
`9 = 10 - 1`), both yielding `needs_improvement = false`. -/
theorem C8_witness :
    (analyzeImprovementNeeds [11, 11, 11, 11, 11] [11, 11, 9, 9, 10]
        "accuracy").needsImprovement = false ∧
    (analyzeImprovementNeeds [9, 9, 9, 9, 9] [11, 11, 9, 9, 10]
        "reaction_time").needsImprovement = false := by
  constructor
  · exact C8_round_trip ("accuracy") [11, 11, 11, 11, 11] [11, 11, 9, 9, 10]
      (by decide) (by decide)
  · exact C8_round_trip ("reaction_time") [9, 9, 9, 9, 9] [11, 11, 9, 9, 10]
      (by decide) (by decide)

/-- Claim C1 (the code contradicts it): on the series
`[50,...,50,0]` the outlier-cleaned sub-series is the constant `[50]*9`
with standard deviation exactly 0, yet `_analyze_improvement_needs`
divides by it: the z-score is `-inf` (recent mean 40 < historical mean
50), not the claimed 0, and for the higher-is-better metric `accuracy`
`needs_improvement` comes out `true` (`-inf < -1.0`), not the claimed
`false`. -/
theorem C1_zero_variance_divides :
    (analyzeMetric tSFZero (3 / 2) "accuracy"
        [50, 50, 50, 50, 50, 50, 50, 50, 50, 0]).map
      (fun m => (m.cleanStats.std, m.improvement.zScore, m.improvement.needsImprovement)) =
    .ok (RV.val 0 0 0, RV.ninf, true) := by decide

/-- Claim C9 (the code contradicts it): `detect_outliers` on the empty
series does not crash, and its bounds are NaN, but the outlier percentage
is NaN as well (`0 / 0` under numpy), not the claimed 0. -/
theorem C9_empty_series :
    detectOutliers (3 / 2) [] =
      ([], { totalOutliers := 0, outlierPercentage := RV.nan
             lowerBound := RV.nan, upperBound := RV.nan }) := by decide

/-- Claim C5 (the code contradicts it): a metric entry with an empty
`trend_analysis` map makes `_calculate_overall_progress` raise
`ValueError` from the built-in `max` over an empty sequence, instead of
contributing 0. -/
theorem C5_empty_trend_raises :
    overallProgress [{ milestoneTotal := 50, trends := [] }] =
      .error (.valueError ("max() arg is an empty sequence")) := by decide

/-- Claim C2 is false at its own input: on
`[70,71,69,70,68,70,71,40,40,40]` with multiplier 1.5 the detector does
not flag the trailing three 40s (it flags nothing), and
`needs_improvement` is `false`, not `true`. -/
theorem C2_counterexample :
    ¬ ((analyzeMetric tSFZero (3 / 2) "accuracy"
          [70, 71, 69, 70, 68, 70, 71, 40, 40, 40]).map
        (fun m => (m.outlierMask, m.improvement.needsImprovement)) =
      .ok ([false, false, false, false, false, false, false, true, true, true], true)) := by
  decide

/-- Claim C2 as amended to what the code computes on
`[70,71,69,70,68,70,71,40,40,40]`: the IQR bounds are `12.5` and `104.5`,
so no value is an outlier; the clean series equals the raw series with
clean mean `60.9`; the recent mean of the last 5 raw observations is
`52.2`; the z-score is negative (≈ `-0.60`) but not below `-1`, so
`needs_improvement = false`; `suggested_target = clean_mean + clean_std
= 60.9 + √(6263/30)` (≈ `75.35`). -/
theorem C2_amended :
    (analyzeMetric tSFZero (3 / 2) "accuracy"
        [70, 71, 69, 70, 68, 70, 71, 40, 40, 40]).map
      (fun m => (m.outlierMask, m.outlierStats.lowerBound, m.outlierStats.upperBound,
                 m.cleanStats.mean)) =
      .ok (List.replicate 10 false, .ofQ (25 / 2), .ofQ (209 / 2), .ofQ (609 / 10)) ∧
    (analyzeMetric tSFZero (3 / 2) "accuracy"
        [70, 71, 69, 70, 68, 70, 71, 40, 40, 40]).map
      (fun m => (m.improvement.recentMean, RV.lt m.improvement.zScore (.ofQ 0),
                 m.improvement.needsImprovement, m.improvement.suggestedTarget)) =
      .ok (.ofQ (261 / 5), true, false, RV.val (609 / 10) 1 (6263 / 30)) := by
  exact ⟨by decide, by decide⟩

/-- Claim C3 is false at the single-point series `[5]`: `_calculate_trend`
does not signal an `InsufficientData` condition there — it returns a
(degenerate) trend result. -/
theorem C3_counterexample :
    calculateTrend tSFZero [5] ≠ .error PyError.insufficientData ∧
    exceptOk (calculateTrend tSFZero [5]) = true := by decide

/-- Claim C7 is false at the two-point window `[-1, -3]` (negative mean):
the consistency score is `100 + 50 * √2 ≈ 170.7`, outside `[0, 100]`. -/
theorem C7_counterexample :
    consistencyRV [-1, -3] = RV.val 100 50 2 ∧
    ¬ RVinRange (consistencyRV [-1, -3]) 0 100 := by
  refine ⟨by decide, ?_⟩
  intro h
  rw [show consistencyRV [-1, -3] = RV.val 100 50 2 from by decide] at h
  simp only [RVinRange] at h
  have h2 := h.2
  have hs : (0 : ℝ) < Real.sqrt 2 := Real.sqrt_pos.mpr (by norm_num)
  push_cast at h2
  nlinarith [hs]

/-- Claim C10: when the target equals the current value (in particular for
the default target `current * 1.2` at `current = 0`), milestone tracking
returns `total_progress = 0`, no next milestone and empty completed and
remaining lists, without error. -/
theorem C10_equal_target (c : ℚ) (n : ℕ) :
    trackMilestones c c n = emptyMilestones ∧
    milestoneForMetric 0 none = emptyMilestones := by
  constructor
  · simp [trackMilestones, emptyMilestones]
  · simp [milestoneForMetric, trackMilestones, emptyMilestones]

